import Mathlib

/-!
A shallow embedding of `src/expressioncalculator.c`: an infix expression
calculator over signed 64-bit integers built from a shunting-yard parser
(infix_to_postfix) and a stack-based postfix evaluator (evaluate_postfix).

Modelling conventions:
* `long long` values are `Int` together with explicit two's-complement
  wraparound (`wrap64`) applied wherever the C arithmetic can overflow.
  `llabs` is modelled with the usual two's-complement behaviour
  (`llabs LLONG_MIN = LLONG_MIN`, which in C is undefined behaviour).
* C strings are `List Char`; a token of the C `TokenList` is a `List Char`,
  and the list of tokens keeps the array order.
* fallible C functions returning `0`/an error message become `Except String`
  or `Option` values.
* the parser's inner digit loop (lines 109-119 of the C file) is modelled by
  carrying the partial numeral buffer (`numbuf`) through the character loop:
  a digit extends the buffer, and any non-digit (or end of input) first
  emits the buffered numeral exactly as the C inner loop does before the
  outer loop handles that character.  This keeps the recursion structural
  (one character per step) so that all runs are kernel-computable.
-/

/-- The C constant MAX_TOKENS from the source file (capacity of stacks and the token list). -/
def MAX_TOKENS : Nat := 4096

/-- The C constant MAX_TOKEN_LEN from the source file (token buffer size, incl. NUL). -/
def MAX_TOKEN_LEN : Nat := 64

/-- The constant LLONG_MAX, the largest signed 64-bit value. -/
def LLONG_MAX : Int := 2 ^ 63 - 1

/-- The constant LLONG_MIN, the smallest signed 64-bit value. -/
def LLONG_MIN : Int := -(2 ^ 63)

/-- Two's-complement wraparound of a mathematical integer into the signed
64-bit range, the effect of storing an overflowing result in a `long long`. -/
def wrap64 (x : Int) : Int := (x + 2 ^ 63) % 2 ^ 64 - 2 ^ 63

/-- C `llabs`: absolute value computed in 64-bit two's complement, so
`llabs LLONG_MIN` wraps back to `LLONG_MIN` (undefined behaviour in C,
modelled as the usual wraparound). -/
def llabs (x : Int) : Int := wrap64 (if x < 0 then -x else x)

/-- C `isdigit` for ASCII. -/
def isCdigit (c : Char) : Bool := '0' ≤ c && c ≤ '9'

/-- C `isspace` in the C locale: space, tab, newline, vertical tab,
form feed, carriage return. -/
def isCspace (c : Char) : Bool :=
  c == ' ' || c == '\t' || c == '\n' || c == '\x0b' || c == '\x0c' || c == '\r'

/-- The function is_operator (C lines 44-46): the operator characters, where the
synthetic character `u` stands for unary minus. -/
def is_operator (c : Char) : Bool :=
  c == '+' || c == '-' || c == '*' || c == '/' || c == '%' || c == '^' || c == 'u'

/-- The function precedence (C lines 48-56). -/
def precedence (op : Char) : Nat :=
  if op == 'u' then 4
  else if op == '^' then 3
  else if op == '*' || op == '/' || op == '%' then 2
  else if op == '+' || op == '-' then 1
  else 0

/-- The function is_right_assoc (C lines 58-60). -/
def is_right_assoc (op : Char) : Bool := op == '^' || op == 'u'

/-- One iteration per unit of `fuel` of the `while (exp)` loop of
`safe_pow_ll` (C lines 65-77).  The C exponent is a 64-bit value halved
each iteration, so 64 units of fuel always suffice; the fuel-exhaustion
branch is unreachable from `safe_pow_ll`. -/
def pow_loop : Nat → Int → Nat → Int → Option Int
  | 0, _, _, result => some result
  | fuel + 1, base, exp, result =>
    if exp = 0 then some result
    else
      let step1 : Option Int :=
        if exp % 2 = 1 then
          if base ≠ 0 ∧ llabs result > Int.tdiv LLONG_MAX (llabs base) then none
          else some (wrap64 (result * base))
        else some result
      match step1 with
      | none => none
      | some result' =>
        let exp' := exp / 2
        if exp' = 0 then some result'
        else
          if llabs base > 0 ∧ llabs base > Int.tdiv LLONG_MAX (llabs base) then none
          else pow_loop fuel (wrap64 (base * base)) exp' result'

/-- The function safe_pow_ll (C lines 63-80): overflow-checked integer exponentiation
by repeated squaring; `none` models returning 0 with no `*out` written. -/
def safe_pow_ll (base expv : Int) : Option Int :=
  if expv < 0 then none
  else pow_loop 64 base expv.toNat 1

/-- A token of the C `TokenList`: the characters of one `items[i]` entry. -/
abbrev Token := List Char

/-- The function tokens_add (C lines 89-95): append a token, refusing beyond
`MAX_TOKENS`; `strncpy` truncates the stored text to `MAX_TOKEN_LEN - 1`
characters. -/
def tokens_add (tl : List Token) (s : Token) : Option (List Token) :=
  if tl.length ≥ MAX_TOKENS then none
  else some (tl ++ [s.take (MAX_TOKEN_LEN - 1)])

/-- Emission of a pending numeral buffer: the token push at C line 116,
performed when the inner digit loop of infix_to_postfix ends. -/
def flush_num : Option (List Char) → List Token → Option (List Token)
  | none, out => some out
  | some ds, out => tokens_add out ds

/-- The apostrophe-quoted character of the C error message
`"Invalid character: '%c'"` (C line 169). -/
def quoteC (c : Char) : String := String.mk [Char.ofNat 39, c, Char.ofNat 39]

/-- The `while` loop of the `')'` case (C lines 128-134): pop and emit
operators until the matching `'('`; an empty stack means mismatched
parentheses. -/
def close_paren : List Char → List Token → Except String (List Char × List Token)
  | [], _ => .error "Mismatched parentheses"
  | top :: rest, out =>
    if top == '(' then .ok (rest, out)
    else
      match tokens_add out [top] with
      | none => .error "Too many tokens"
      | some out' => close_paren rest out'

/-- The pop-while-higher-precedence loop run before pushing a new operator
`op` (C lines 153-161). -/
def pop_higher (op : Char) : List Char → List Token → Except String (List Char × List Token)
  | [], out => .ok ([], out)
  | top :: rest, out =>
    if is_operator top then
      if precedence top > precedence op ∨ (precedence top = precedence op ∧ ¬is_right_assoc op) then
        match tokens_add out [top] with
        | none => .error "Too many tokens"
        | some out' => pop_higher op rest out'
      else .ok (top :: rest, out)
    else .ok (top :: rest, out)

/-- The drain loop at end of input (C lines 174-179): emit the remaining
operators; a leftover parenthesis is an error. -/
def drain_ops : List Char → List Token → Except String (List Token)
  | [], out => .ok out
  | top :: rest, out =>
    if top == '(' || top == ')' then .error "Mismatched parentheses"
    else
      match tokens_add out [top] with
      | none => .error "Too many tokens"
      | some out' => drain_ops rest out'

/-- The character loop of infix_to_postfix (C lines 105-183).  State:
remaining input, operator stack `ops` (head = top), emitted tokens `out`,
the `expect_operand` flag, and the pending digit buffer `numbuf` of the
inner numeral loop (see the file comment). -/
def i2p_loop : List Char → List Char → List Token → Bool → Option (List Char) →
    Except String (List Token)
  | [], ops, out, expect, numbuf =>
    -- end of input: a pending numeral is emitted by the inner loop first
    -- (with expect_operand cleared), then the operator stack is drained
    -- (C lines 174-179) and the trailing-operand check runs (C line 181).
    match flush_num numbuf out with
    | none => .error "Too many tokens"
    | some out' =>
      let expect' := if numbuf.isSome then false else expect
      match drain_ops ops out' with
      | .error e => .error e
      | .ok out'' => if expect' then .error "Expression ends unexpectedly" else .ok out''
  | c :: rest, ops, out, expect, numbuf =>
    if isCdigit c then
      -- C lines 109-119: extend the current numeral, guarding its length.
      match numbuf with
      | none => i2p_loop rest ops out expect (some [c])
      | some ds =>
        if ds.length + 1 ≥ MAX_TOKEN_LEN then .error "Number token too long"
        else i2p_loop rest ops out expect (some (ds ++ [c]))
    else
      -- any non-digit first terminates a pending numeral (C line 116),
      -- clearing expect_operand (C line 117), then is handled itself.
      match flush_num numbuf out with
      | none => .error "Too many tokens"
      | some out' =>
        let expect' := if numbuf.isSome then false else expect
        if isCspace c then i2p_loop rest ops out' expect' none
        else if c == '(' then
          if ops.length ≥ MAX_TOKENS then .error "Operator stack overflow"
          else i2p_loop rest ('(' :: ops) out' true none
        else if c == ')' then
          match close_paren ops out' with
          | .error e => .error e
          | .ok (ops', out'') => i2p_loop rest ops' out'' false none
        else if is_operator c then
          let op := if c == '-' && expect' then 'u' else c
          if expect' && op != 'u' then .error "Unexpected operator"
          else
            match pop_higher op ops out' with
            | .error e => .error e
            | .ok (ops', out'') =>
              if ops'.length ≥ MAX_TOKENS then .error "Operator stack overflow"
              else i2p_loop rest (op :: ops') out'' (op != 'u') none
        else .error ("Invalid character: " ++ quoteC c)

/-- The function infix_to_postfix (C lines 98-184): shunting-yard translation of an
infix expression string to a postfix token sequence. -/
def infix_to_postfix (expr : String) : Except String (List Token) :=
  i2p_loop expr.data [] [] true none

/-- The function ns_push (C lines 36-40): push onto the value stack (head = top),
refusing beyond `MAX_TOKENS` entries. -/
def ns_push (stk : List Int) (v : Int) : Option (List Int) :=
  if stk.length ≥ MAX_TOKENS then none else some (v :: stk)

/-- The function apply_op (C lines 187-220): apply one operator token to the value
stack.  All arithmetic is 64-bit (`wrap64`); `/` and `%` are the C
truncating division and remainder. -/
def apply_op (op : Char) (stk : List Int) : Except String (List Int) :=
  if op == 'u' then
    match stk with
    | [] => .error "Not enough operands for unary minus"
    | a :: rest =>
      match ns_push rest (wrap64 (-a)) with
      | none => .error "Value stack overflow"
      | some s => .ok s
  else
    match stk with
    | b :: a :: rest =>
      let r : Except String Int :=
        if op == '+' then .ok (wrap64 (a + b))
        else if op == '-' then .ok (wrap64 (a - b))
        else if op == '*' then .ok (wrap64 (a * b))
        else if op == '/' then
          if b = 0 then .error "Division by zero" else .ok (wrap64 (Int.tdiv a b))
        else if op == '%' then
          if b = 0 then .error "Modulo by zero" else .ok (wrap64 (Int.tmod a b))
        else if op == '^' then
          match safe_pow_ll a b with
          | none => .error "Invalid or overflow in exponentiation"
          | some v => .ok v
        else .error "Unknown operator in evaluation"
      match r with
      | .error e => .error e
      | .ok v =>
        match ns_push rest v with
        | none => .error "Value stack overflow"
        | some s => .ok s
    | _ => .error "Not enough operands for binary operator"

/-- The value of a digit string, as accumulated by `strtoll`. -/
def digitsVal (ds : List Char) : Nat :=
  ds.foldl (fun acc c => acc * 10 + (c.toNat - '0'.toNat)) 0

/-- The numeral parse of evaluate_postfix (C lines 235-241): `strtoll`
in base 10 together with the caller's validity checks.  It succeeds iff
the whole token is optional C whitespace, an optional sign, and a nonempty
digit run whose signed value fits in 64 bits; otherwise `errno`,
`endptr == t` or `*endptr != 0` makes the caller fail. -/
def parse_ll (t : List Char) : Option Int :=
  let t1 := t.dropWhile isCspace
  let sgn : Int := match t1 with
    | '-' :: _ => -1
    | _ => 1
  let t2 : List Char := match t1 with
    | '-' :: r => r
    | '+' :: r => r
    | r => r
  let ds := t2.takeWhile isCdigit
  let rest := t2.dropWhile isCdigit
  if ds = [] then none
  else if rest ≠ [] then none
  else
    let v : Int := sgn * (digitsVal ds : Int)
    if v < LLONG_MIN ∨ v > LLONG_MAX then none else some v

/-- The token test `strlen(t) == 1 && is_operator(t[0])` (C line 229). -/
def is_op_token (t : Token) : Bool :=
  match t with
  | [c] => is_operator c
  | _ => false

/-- The token loop of evaluate_postfix (C lines 225-247) plus the final
single-value check. -/
def eval_loop : List Token → List Int → Except String Int
  | [], stk =>
    match stk with
    | [v] => .ok v
    | _ => .error "Extra operands or insufficient operators"
  | t :: rest, stk =>
    let step : Except String (List Int) :=
      if is_op_token t then apply_op (t.headD ' ') stk
      else
        match parse_ll t with
        | none => .error "Invalid number in postfix"
        | some v =>
          match ns_push stk v with
          | none => .error "Value stack overflow"
          | some s => .ok s
    match step with
    | .error e => .error e
    | .ok stk' => eval_loop rest stk'

/-- The function evaluate_postfix (C lines 222-248). -/
def evaluate_postfix (toks : List Token) : Except String Int :=
  eval_loop toks []

/-- The text printed by print_postfix (C lines 251-259): the tokens
joined by single spaces, a unary-minus token shown as `~`. -/
def print_postfix (toks : List Token) : List Char :=
  List.intercalate [' '] (toks.map (fun t => if t = ['u'] then ['~'] else t))

/-- Well-formed parser token: a single operator character, or a nonempty
digit string. -/
def wf_tok (t : Token) : Prop :=
  (∃ c, t = [c] ∧ is_operator c = true) ∨ (t ≠ [] ∧ ∀ c ∈ t, isCdigit c = true)

/-- The characters the parser can consume without a lexical error:
C whitespace, digits, parentheses, and the `is_operator` characters
(which include the synthetic `u`). -/
def allowedChar (c : Char) : Bool :=
  isCspace c || isCdigit c || c == '(' || c == ')' || is_operator c

theorem ofNat_tdiv (m n : Nat) : Int.tdiv (m : Int) (n : Int) = ((m / n : Nat) : Int) := rfl

theorem castM : (((2 : Nat) ^ 63 - 1 : Nat) : Int) = LLONG_MAX := by decide

theorem pow64_lit : (2 : Int) ^ 64 = 18446744073709551616 := by norm_num

theorem wrap64_id {x : Int} (h1 : LLONG_MIN ≤ x) (h2 : x ≤ LLONG_MAX) : wrap64 x = x := by
  simp only [wrap64, LLONG_MIN, LLONG_MAX, pow64_lit] at *
  omega

theorem natAbs_le_range {x : Int} (h : x.natAbs ≤ 2 ^ 63 - 1) :
    LLONG_MIN ≤ x ∧ x ≤ LLONG_MAX := by
  simp only [LLONG_MIN, LLONG_MAX]
  omega

theorem wrap64_id_abs {x : Int} (h : x.natAbs ≤ 2 ^ 63 - 1) : wrap64 x = x :=
  wrap64_id (natAbs_le_range h).1 (natAbs_le_range h).2

theorem llabs_ofRange {x : Int} (h : x.natAbs ≤ 2 ^ 63 - 1) : llabs x = (x.natAbs : Int) := by
  simp only [llabs, wrap64, pow64_lit]
  split <;> omega

theorem guard1_iff {x y : Int} (hx : x.natAbs ≤ 2 ^ 63 - 1) (hy : y.natAbs ≤ 2 ^ 63 - 1)
    (hxne : x ≠ 0) :
    (llabs y > Int.tdiv LLONG_MAX (llabs x)) ↔ 2 ^ 63 - 1 < y.natAbs * x.natAbs := by
  rw [llabs_ofRange hx, llabs_ofRange hy, ← castM, ofNat_tdiv, gt_iff_lt, Int.ofNat_lt]
  exact Nat.div_lt_iff_lt_mul (Int.natAbs_pos.mpr hxne)

theorem llabs_pos_iff {x : Int} (hx : x.natAbs ≤ 2 ^ 63 - 1) : (llabs x > 0) ↔ x ≠ 0 := by
  rw [llabs_ofRange hx, gt_iff_lt]
  exact_mod_cast Int.natAbs_pos

theorem wrap64_zero : wrap64 0 = 0 := by decide

theorem llabs_zero : llabs 0 = 0 := by decide

theorem pow_loop_spec (fuel : Nat) :
    ∀ (exp : Nat) (base result : Int),
    exp < 2 ^ fuel →
    base.natAbs ≤ 2 ^ 63 - 1 →
    result.natAbs ≤ 2 ^ 63 - 1 →
    (result = 0 → base = 0) →
    pow_loop fuel base exp result =
      if (result * base ^ exp).natAbs ≤ 2 ^ 63 - 1 then some (result * base ^ exp)
      else none := by
  induction fuel with
  | zero =>
    intro exp base result hexp hb hr h0
    have he : exp = 0 := by simpa using hexp
    subst he
    simp only [pow_loop, pow_zero, mul_one]
    rw [if_pos hr]
  | succ fuel ih =>
    intro exp base result hexp hb hr h0
    have hexp2 : exp / 2 < 2 ^ fuel := by rw [pow_succ] at hexp; omega
    rcases Nat.eq_zero_or_pos exp with he | hepos
    · subst he
      simp only [pow_loop, if_pos, pow_zero, mul_one]
      rw [if_pos hr]
    · have he : ¬(exp = 0) := by omega
      rcases Nat.lt_or_ge (exp % 2) 1 with hmlt | hmge
      · -- even case: exp % 2 = 0, hence exp ≥ 2 and exp / 2 ≠ 0
        have hm1 : ¬(exp % 2 = 1) := by omega
        have he2 : ¬(exp / 2 = 0) := by omega
        by_cases hbz : base = 0
        · subst hbz
          have hgz : ¬(llabs (0 : Int) > 0 ∧
              llabs (0 : Int) > Int.tdiv LLONG_MAX (llabs 0)) := by
            simp [llabs_zero]
          have hrec := ih (exp / 2) 0 result hexp2 (by simp) hr (fun _ => rfl)
          rw [zero_pow he2, mul_zero] at hrec
          simp only [pow_loop, if_neg he, hm1, if_false, if_neg he2, if_neg hgz,
            mul_zero, wrap64_zero, hrec, zero_pow he, Int.natAbs_zero]
        · have hrz : result ≠ 0 := fun h => hbz (h0 h)
          have hb1 : 1 ≤ base.natAbs := Int.natAbs_pos.mpr hbz
          have hr1 : 1 ≤ result.natAbs := Int.natAbs_pos.mpr hrz
          have hg2a := (llabs_pos_iff hb).mpr hbz
          have hg2b := guard1_iff hb hb hbz
          by_cases hsq : 2 ^ 63 - 1 < base.natAbs * base.natAbs
          · -- squaring guard fires; the true result overflows as well
            have hgpos : llabs base > 0 ∧ llabs base > Int.tdiv LLONG_MAX (llabs base) :=
              ⟨hg2a, hg2b.mpr hsq⟩
            have hbig : 2 ^ 63 - 1 < (result * base ^ exp).natAbs := by
              rw [Int.natAbs_mul, Int.natAbs_pow]
              have h1 : base.natAbs * base.natAbs = base.natAbs ^ 2 := by ring
              have h2 : base.natAbs ^ 2 ≤ base.natAbs ^ exp :=
                Nat.pow_le_pow_right hb1 (by omega)
              have h3 : base.natAbs ^ exp ≤ result.natAbs * base.natAbs ^ exp :=
                Nat.le_mul_of_pos_left (base.natAbs ^ exp) (by omega)
              omega
            simp only [pow_loop, if_neg he, hm1, if_false, if_neg he2, if_pos hgpos]
            rw [if_neg (by omega)]
          · have hgneg : ¬(llabs base > 0 ∧ llabs base > Int.tdiv LLONG_MAX (llabs base)) :=
              fun hx => hsq (hg2b.mp hx.2)
            have hsq' : (base * base).natAbs ≤ 2 ^ 63 - 1 := by
              rw [Int.natAbs_mul]; omega
            have hw : wrap64 (base * base) = base * base := wrap64_id_abs hsq'
            have hrec := ih (exp / 2) (base * base) result hexp2 hsq' hr
              (fun h => absurd h hrz)
            have halg : result * (base * base) ^ (exp / 2) = result * base ^ exp := by
              have hde : exp / 2 + exp / 2 = exp := by omega
              rw [mul_pow, ← pow_add, hde]
            rw [halg] at hrec
            simp only [pow_loop, if_neg he, hm1, if_false, if_neg he2, if_neg hgneg, hw,
              hrec]
      · -- odd case: exp % 2 = 1
        have hm1 : exp % 2 = 1 := by omega
        by_cases hbz : base = 0
        · subst hbz
          have hgz : ¬((0 : Int) ≠ 0 ∧
              llabs result > Int.tdiv LLONG_MAX (llabs 0)) := by simp
          by_cases he2 : exp / 2 = 0
          · simp only [pow_loop, if_neg he, hm1, if_pos, if_neg hgz, mul_zero,
              wrap64_zero, if_pos he2, zero_pow he, Int.natAbs_zero]
            rw [if_pos (by omega)]
          · have hgz2 : ¬(llabs (0 : Int) > 0 ∧
                llabs (0 : Int) > Int.tdiv LLONG_MAX (llabs 0)) := by
              simp [llabs_zero]
            have hrec := ih (exp / 2) 0 0 hexp2 (by simp) (by simp) (fun _ => rfl)
            rw [zero_pow he2, mul_zero] at hrec
            simp only [pow_loop, if_neg he, hm1, if_pos, if_neg hgz, mul_zero,
              wrap64_zero, if_neg he2, if_neg hgz2, hrec, zero_pow he,
              Int.natAbs_zero]
        · have hrz : result ≠ 0 := fun h => hbz (h0 h)
          have hb1 : 1 ≤ base.natAbs := Int.natAbs_pos.mpr hbz
          have hr1 : 1 ≤ result.natAbs := Int.natAbs_pos.mpr hrz
          have hg1 := guard1_iff hb hr hbz
          by_cases hov : 2 ^ 63 - 1 < result.natAbs * base.natAbs
          · -- multiply guard fires; the true result overflows as well
            have hg1pos : base ≠ 0 ∧ llabs result > Int.tdiv LLONG_MAX (llabs base) :=
              ⟨hbz, hg1.mpr hov⟩
            have hbig : 2 ^ 63 - 1 < (result * base ^ exp).natAbs := by
              rw [Int.natAbs_mul, Int.natAbs_pow]
              have h2 : base.natAbs ^ 1 ≤ base.natAbs ^ exp :=
                Nat.pow_le_pow_right hb1 (by omega)
              have h3 : result.natAbs * base.natAbs ^ 1 ≤
                  result.natAbs * base.natAbs ^ exp := Nat.mul_le_mul_left _ h2
              rw [pow_one] at h3
              omega
            simp only [pow_loop, if_neg he, hm1, if_pos, if_pos hg1pos]
            rw [if_neg (by omega)]
          · have hg1neg : ¬(base ≠ 0 ∧ llabs result > Int.tdiv LLONG_MAX (llabs base)) :=
              fun hx => hov (hg1.mp hx.2)
            have hrb : (result * base).natAbs ≤ 2 ^ 63 - 1 := by
              rw [Int.natAbs_mul]; omega
            have hwm : wrap64 (result * base) = result * base := wrap64_id_abs hrb
            by_cases he2 : exp / 2 = 0
            · have hexp1 : exp = 1 := by omega
              subst hexp1
              simp only [pow_loop, if_neg he, hm1, if_pos, if_neg hg1neg, hwm,
                if_pos he2, pow_one]
              rw [if_pos hrb]
            · have hg2a := (llabs_pos_iff hb).mpr hbz
              have hg2b := guard1_iff hb hb hbz
              by_cases hsq : 2 ^ 63 - 1 < base.natAbs * base.natAbs
              · have hgpos : llabs base > 0 ∧
                    llabs base > Int.tdiv LLONG_MAX (llabs base) := ⟨hg2a, hg2b.mpr hsq⟩
                have hbig : 2 ^ 63 - 1 < (result * base ^ exp).natAbs := by
                  rw [Int.natAbs_mul, Int.natAbs_pow]
                  have h1 : base.natAbs * base.natAbs = base.natAbs ^ 2 := by ring
                  have h2 : base.natAbs ^ 2 ≤ base.natAbs ^ exp :=
                    Nat.pow_le_pow_right hb1 (by omega)
                  have h3 : base.natAbs ^ exp ≤ result.natAbs * base.natAbs ^ exp :=
                    Nat.le_mul_of_pos_left (base.natAbs ^ exp) (by omega)
                  omega
                simp only [pow_loop, if_neg he, hm1, if_pos, if_neg hg1neg, hwm,
                  if_neg he2, if_pos hgpos]
                rw [if_neg (by omega)]
              · have hgneg : ¬(llabs base > 0 ∧
                    llabs base > Int.tdiv LLONG_MAX (llabs base)) :=
                  fun hx => hsq (hg2b.mp hx.2)
                have hsq' : (base * base).natAbs ≤ 2 ^ 63 - 1 := by
                  rw [Int.natAbs_mul]; omega
                have hw : wrap64 (base * base) = base * base := wrap64_id_abs hsq'
                have hrec := ih (exp / 2) (base * base) (result * base) hexp2 hsq' hrb
                  (fun h => absurd h (mul_ne_zero hrz hbz))
                have halg : result * base * (base * base) ^ (exp / 2) =
                    result * base ^ exp := by
                  have hde : exp / 2 + exp / 2 + 1 = exp := by omega
                  rw [mul_pow, ← pow_add, mul_assoc, ← pow_succ', hde]
                rw [halg] at hrec
                simp only [pow_loop, if_neg he, hm1, if_pos, if_neg hg1neg, hwm,
                  if_neg he2, if_neg hgneg, hw, hrec]

theorem safe_pow_ll_neg {a b : Int} (h : b < 0) : safe_pow_ll a b = none := by
  unfold safe_pow_ll
  rw [if_pos h]

theorem safe_pow_ll_spec {a b : Int} (hb0 : 0 ≤ b) (hbM : b ≤ LLONG_MAX)
    (haL : LLONG_MIN < a) (haM : a ≤ LLONG_MAX) :
    safe_pow_ll a b =
      if (a ^ b.toNat).natAbs ≤ 2 ^ 63 - 1 then some (a ^ b.toNat) else none := by
  unfold safe_pow_ll
  rw [if_neg (not_lt.mpr hb0)]
  have h1 : b.toNat < 2 ^ 64 := by
    simp only [LLONG_MAX] at hbM
    omega
  have h2 : a.natAbs ≤ 2 ^ 63 - 1 := by
    simp only [LLONG_MIN, LLONG_MAX] at haL haM
    omega
  have h3 := pow_loop_spec 64 b.toNat a 1 h1 h2 (by omega) (by omega)
  simpa using h3

theorem tokens_add_of_lt {tl : List Token} (s : Token) (h : tl.length < MAX_TOKENS) :
    tokens_add tl s = some (tl ++ [s.take (MAX_TOKEN_LEN - 1)]) := by
  unfold tokens_add
  rw [if_neg (by omega)]

theorem wf_tok_take {s : Token} (h : wf_tok s) : wf_tok (s.take (MAX_TOKEN_LEN - 1)) := by
  rcases h with ⟨c, rfl, hop⟩ | ⟨hne, hdig⟩
  · exact Or.inl ⟨c, rfl, hop⟩
  · refine Or.inr ⟨?_, fun c hc => hdig c (List.take_subset _ _ hc)⟩
    cases s with
    | nil => exact absurd rfl hne
    | cons a l => simp [MAX_TOKEN_LEN]

theorem tokens_add_wf {out : List Token} {s : Token} {out' : List Token}
    (hout : ∀ t ∈ out, wf_tok t) (hs : wf_tok s)
    (h : tokens_add out s = some out') : ∀ t ∈ out', wf_tok t := by
  unfold tokens_add at h
  split at h
  · exact absurd h (by simp)
  · injection h with h'
    subst h'
    intro t ht
    rcases List.mem_append.mp ht with h1 | h1
    · exact hout t h1
    · rw [List.mem_singleton.mp h1]
      exact wf_tok_take hs

theorem close_paren_wf :
    ∀ (ops : List Char) (out : List Token) (ops' : List Char) (out' : List Token),
    close_paren ops out = .ok (ops', out') →
    (∀ c ∈ ops, c = '(' ∨ is_operator c = true) →
    (∀ t ∈ out, wf_tok t) →
    (∀ c ∈ ops', c = '(' ∨ is_operator c = true) ∧ (∀ t ∈ out', wf_tok t) := by
  intro ops
  induction ops with
  | nil => intro out ops' out' h _ _; exact absurd h (by simp [close_paren])
  | cons top rest ih =>
    intro out ops' out' h hops hout
    unfold close_paren at h
    split at h
    · injection h with h'
      injection h' with h1 h2
      subst h1; subst h2
      exact ⟨fun c hc => hops c (List.mem_cons_of_mem _ hc), hout⟩
    · rename_i hne
      have htop : is_operator top = true := by
        rcases hops top (List.mem_cons_self _ _) with h1 | h1
        · exact absurd (by simp [h1]) hne
        · exact h1
      cases hta : tokens_add out [top] with
      | none => rw [hta] at h; exact absurd h (by simp)
      | some out1 =>
        rw [hta] at h
        exact ih out1 ops' out' h (fun c hc => hops c (List.mem_cons_of_mem _ hc))
          (tokens_add_wf hout (Or.inl ⟨top, rfl, htop⟩) hta)

theorem pop_higher_wf (op : Char) :
    ∀ (ops : List Char) (out : List Token) (ops' : List Char) (out' : List Token),
    pop_higher op ops out = .ok (ops', out') →
    (∀ c ∈ ops, c = '(' ∨ is_operator c = true) →
    (∀ t ∈ out, wf_tok t) →
    (∀ c ∈ ops', c = '(' ∨ is_operator c = true) ∧ (∀ t ∈ out', wf_tok t) := by
  intro ops
  induction ops with
  | nil =>
    intro out ops' out' h _ hout
    unfold pop_higher at h
    injection h with h'
    injection h' with h1 h2
    subst h1; subst h2
    exact ⟨by simp, hout⟩
  | cons top rest ih =>
    intro out ops' out' h hops hout
    unfold pop_higher at h
    split at h
    · rename_i htop
      split at h
      · cases hta : tokens_add out [top] with
        | none => rw [hta] at h; exact absurd h (by simp)
        | some out1 =>
          rw [hta] at h
          exact ih out1 ops' out' h (fun c hc => hops c (List.mem_cons_of_mem _ hc))
            (tokens_add_wf hout (Or.inl ⟨top, rfl, htop⟩) hta)
      · injection h with h'
        injection h' with h1 h2
        subst h1; subst h2
        exact ⟨hops, hout⟩
    · injection h with h'
      injection h' with h1 h2
      subst h1; subst h2
      exact ⟨hops, hout⟩

theorem drain_ops_wf :
    ∀ (ops : List Char) (out : List Token) (out' : List Token),
    drain_ops ops out = .ok out' →
    (∀ c ∈ ops, c = '(' ∨ is_operator c = true) →
    (∀ t ∈ out, wf_tok t) →
    ∀ t ∈ out', wf_tok t := by
  intro ops
  induction ops with
  | nil =>
    intro out out' h _ hout
    unfold drain_ops at h
    injection h with h'
    subst h'
    exact hout
  | cons top rest ih =>
    intro out out' h hops hout
    unfold drain_ops at h
    split at h
    · exact absurd h (by simp)
    · rename_i hne
      have htop : is_operator top = true := by
        rcases hops top (List.mem_cons_self _ _) with h1 | h1
        · exact absurd (by simp [h1]) hne
        · exact h1
      cases hta : tokens_add out [top] with
      | none => rw [hta] at h; exact absurd h (by simp)
      | some out1 =>
        rw [hta] at h
        exact ih out1 out' h (fun c hc => hops c (List.mem_cons_of_mem _ hc))
          (tokens_add_wf hout (Or.inl ⟨top, rfl, htop⟩) hta)

theorem flush_num_wf {numbuf : Option (List Char)} {out out1 : List Token}
    (hnb : ∀ ds, numbuf = some ds → ds ≠ [] ∧ ∀ c ∈ ds, isCdigit c = true)
    (hout : ∀ t ∈ out, wf_tok t)
    (h : flush_num numbuf out = some out1) : ∀ t ∈ out1, wf_tok t := by
  cases numbuf with
  | none =>
    simp only [flush_num] at h
    injection h with h'
    subst h'
    exact hout
  | some ds => exact tokens_add_wf hout (Or.inr (hnb ds rfl)) h

theorem i2p_loop_wf :
    ∀ (cs : List Char) (ops : List Char) (out : List Token) (expect : Bool)
      (numbuf : Option (List Char)) (toks : List Token),
    (∀ t ∈ out, wf_tok t) →
    (∀ c ∈ ops, c = '(' ∨ is_operator c = true) →
    (∀ ds, numbuf = some ds → ds ≠ [] ∧ ∀ c ∈ ds, isCdigit c = true) →
    i2p_loop cs ops out expect numbuf = .ok toks →
    ∀ t ∈ toks, wf_tok t := by
  intro cs
  induction cs with
  | nil =>
    intro ops out expect numbuf toks hout hops hnb h
    simp only [i2p_loop] at h
    split at h
    · exact absurd h (by simp)
    · rename_i out1 hfl
      generalize hex : (if numbuf.isSome = true then false else expect) = expect1 at h
      split at h
      · exact absurd h (by simp)
      · rename_i out2 hdr
        have hout2 := drain_ops_wf ops out1 out2 hdr hops (flush_num_wf hnb hout hfl)
        split at h
        · exact absurd h (by simp)
        · injection h with h'
          subst h'
          exact hout2
  | cons c rest ih =>
    intro ops out expect numbuf toks hout hops hnb h
    simp only [i2p_loop] at h
    split at h
    · -- digit character
      rename_i hd
      split at h
      · -- numbuf = none: start a fresh numeral
        refine ih ops out expect (some [c]) toks hout hops ?_ h
        intro ds hds
        injection hds with h'
        subst h'
        exact ⟨by simp, fun x hx => by rw [List.mem_singleton.mp hx]; exact hd⟩
      · -- numbuf = some ds: extend the numeral
        rename_i ds
        split at h
        · exact absurd h (by simp)
        · refine ih ops out expect (some (ds ++ [c])) toks hout hops ?_ h
          intro ds' hds'
          injection hds' with h'
          subst h'
          obtain ⟨h1, h2⟩ := hnb ds rfl
          refine ⟨by simp, fun x hx => ?_⟩
          rcases List.mem_append.mp hx with hx1 | hx1
          · exact h2 x hx1
          · rw [List.mem_singleton.mp hx1]
            exact hd
    · -- non-digit: the pending numeral is flushed first
      rename_i hd
      split at h
      · exact absurd h (by simp)
      · rename_i out1 hfl
        have hout1 := flush_num_wf hnb hout hfl
        generalize hex : (if numbuf.isSome = true then false else expect) = expect1 at h
        split at h
        · -- whitespace
          exact ih ops out1 expect1 none toks hout1 hops (by simp) h
        · split at h
          · -- open parenthesis
            split at h
            · exact absurd h (by simp)
            · refine ih ('(' :: ops) out1 true none toks hout1 ?_ (by simp) h
              intro x hx
              rcases List.mem_cons.mp hx with h1 | h1
              · exact Or.inl h1
              · exact hops x h1
          · split at h
            · -- close parenthesis
              split at h
              · exact absurd h (by simp)
              · rename_i hcp
                obtain ⟨hops1, hout2⟩ := close_paren_wf _ _ _ _ hcp hops hout1
                exact ih _ _ false none toks hout2 hops1 (by simp) h
            · split at h
              · -- operator character
                rename_i hio
                generalize hop : (if (c == '-' && expect1) = true then 'u' else c) = op1 at h
                have hop1 : op1 = '(' ∨ is_operator op1 = true := by
                  rw [← hop]
                  split
                  · exact Or.inr rfl
                  · exact Or.inr hio
                split at h
                · exact absurd h (by simp)
                · split at h
                  · exact absurd h (by simp)
                  · rename_i hph
                    obtain ⟨hops1, hout2⟩ := pop_higher_wf _ _ _ _ _ hph hops hout1
                    split at h
                    · exact absurd h (by simp)
                    · refine ih _ _ _ none toks hout2 ?_ (by simp) h
                      intro x hx
                      rcases List.mem_cons.mp hx with h1 | h1
                      · subst h1
                        exact hop1
                      · exact hops1 x h1
              · exact absurd h (by simp)

theorem i2p_loop_chars :
    ∀ (cs : List Char) (ops : List Char) (out : List Token) (expect : Bool)
      (numbuf : Option (List Char)) (toks : List Token),
    i2p_loop cs ops out expect numbuf = .ok toks →
    ∀ c ∈ cs, allowedChar c = true := by
  intro cs
  induction cs with
  | nil =>
    intro ops out expect numbuf toks _ c hc
    exact absurd hc (List.not_mem_nil c)
  | cons c rest ih =>
    intro ops out expect numbuf toks h x hx
    simp only [i2p_loop] at h
    split at h
    · -- digit head
      rename_i hd
      rcases List.mem_cons.mp hx with hx1 | hx1
      · subst hx1
        simp [allowedChar, hd]
      · split at h
        · exact ih _ _ _ _ _ h x hx1
        · split at h
          · exact absurd h (by simp)
          · exact ih _ _ _ _ _ h x hx1
    · rename_i hd
      split at h
      · exact absurd h (by simp)
      · rename_i out1 hfl
        generalize hex : (if numbuf.isSome = true then false else expect) = expect1 at h
        split at h
        · -- whitespace head
          rename_i hsp
          rcases List.mem_cons.mp hx with hx1 | hx1
          · subst hx1
            simp [allowedChar, hsp]
          · exact ih _ _ _ _ _ h x hx1
        · split at h
          · -- open parenthesis
            rename_i hpar
            rcases List.mem_cons.mp hx with hx1 | hx1
            · subst hx1
              simp [allowedChar, hpar]
            · split at h
              · exact absurd h (by simp)
              · exact ih _ _ _ _ _ h x hx1
          · split at h
            · -- close parenthesis
              rename_i hpar
              rcases List.mem_cons.mp hx with hx1 | hx1
              · subst hx1
                simp [allowedChar, hpar]
              · split at h
                · exact absurd h (by simp)
                · exact ih _ _ _ _ _ h x hx1
            · split at h
              · -- operator
                rename_i hio
                rcases List.mem_cons.mp hx with hx1 | hx1
                · subst hx1
                  simp [allowedChar, hio]
                · generalize hop : (if (c == '-' && expect1) = true then 'u' else c) = op1 at h
                  split at h
                  · exact absurd h (by simp)
                  · split at h
                    · exact absurd h (by simp)
                    · split at h
                      · exact absurd h (by simp)
                      · exact ih _ _ _ _ _ h x hx1
              · exact absurd h (by simp)

theorem i2p_loop_invalid_char (c : Char) (rest ops : List Char) (out : List Token)
    (expect : Bool) (h : allowedChar c = false) :
    i2p_loop (c :: rest) ops out expect none =
      .error ("Invalid character: " ++ quoteC c) := by
  simp only [allowedChar, Bool.or_eq_false_iff] at h
  obtain ⟨⟨⟨⟨h1, h2⟩, h3⟩, h4⟩, h5⟩ := h
  simp [i2p_loop, flush_num, h1, h2, h3, h4, h5]

theorem digit_not_space {c : Char} (h : isCdigit c = true) : isCspace c = false := by
  by_contra hsp
  rw [Bool.not_eq_false] at hsp
  simp only [isCspace, Bool.or_eq_true, beq_iff_eq] at hsp
  rcases hsp with ((((h1 | h1) | h1) | h1) | h1) | h1 <;> subst h1 <;>
    exact absurd h (by decide)

theorem digit_ne_dash {c : Char} (h : isCdigit c = true) : c ≠ '-' :=
  fun heq => absurd (heq ▸ h) (by decide)

theorem digit_ne_plus {c : Char} (h : isCdigit c = true) : c ≠ '+' :=
  fun heq => absurd (heq ▸ h) (by decide)

theorem takeWhile_all : ∀ (l : List Char), (∀ c ∈ l, isCdigit c = true) →
    l.takeWhile isCdigit = l ∧ l.dropWhile isCdigit = [] := by
  intro l
  induction l with
  | nil => intro _; exact ⟨rfl, rfl⟩
  | cons a l ih =>
    intro h
    have ha : isCdigit a = true := h a (List.mem_cons_self _ _)
    have := ih (fun c hc => h c (List.mem_cons_of_mem _ hc))
    simp [List.takeWhile_cons, List.dropWhile_cons, ha, this.1, this.2]

theorem parse_ll_digits {t : List Char} (hne : t ≠ [])
    (hdig : ∀ c ∈ t, isCdigit c = true) (hle : digitsVal t ≤ 2 ^ 63 - 1) :
    parse_ll t = some ((digitsVal t : Nat) : Int) := by
  obtain ⟨c, cs, rfl⟩ := List.exists_cons_of_ne_nil hne
  have hc : isCdigit c = true := hdig c (List.mem_cons_self _ _)
  have hcs : isCspace c = false := digit_not_space hc
  have htw := takeWhile_all (c :: cs) hdig
  unfold parse_ll
  rw [List.dropWhile_cons, hcs]
  simp only [Bool.false_eq_true, if_false]
  have hsgn : (match c :: cs with | '-' :: _ => (-1 : Int) | _ => 1) = 1 := by
    split
    · rename_i heq
      injection heq with heq1 _
      exact absurd heq1 (digit_ne_dash hc)
    · rfl
  have ht2 : (match c :: cs with
      | '-' :: r => r
      | '+' :: r => r
      | r => r) = c :: cs := by
    split
    · rename_i heq
      injection heq with heq1 _
      exact absurd heq1 (digit_ne_dash hc)
    · rename_i heq
      injection heq with heq1 _
      exact absurd heq1 (digit_ne_plus hc)
    · rfl
  rw [hsgn, ht2, htw.1, htw.2]
  rw [if_neg (by simp), if_neg (by simp)]
  have hnn : (0 : Int) ≤ ((digitsVal (c :: cs) : Nat) : Int) := Int.ofNat_nonneg _
  have hub : ((digitsVal (c :: cs) : Nat) : Int) ≤ LLONG_MAX := by
    rw [← castM]
    exact Int.ofNat_le.mpr hle
  rw [one_mul, if_neg (by simp only [LLONG_MIN, LLONG_MAX] at *; omega)]

theorem apply_op_ne_invalid (op : Char) (stk : List Int) :
    apply_op op stk ≠ Except.error "Invalid number in postfix" := by
  unfold apply_op ns_push
  repeat' split
  all_goals simp

theorem eval_loop_ne_invalid :
    ∀ (toks : List Token) (stk : List Int),
    (∀ t ∈ toks, wf_tok t) →
    (∀ t ∈ toks, (∀ c ∈ t, isCdigit c = true) → digitsVal t ≤ 2 ^ 63 - 1) →
    eval_loop toks stk ≠ .error "Invalid number in postfix" := by
  intro toks
  induction toks with
  | nil =>
    intro stk _ _
    unfold eval_loop
    split <;> simp
  | cons t rest ih =>
    intro stk hwf hrange
    simp only [eval_loop]
    by_cases hop : is_op_token t = true
    · rw [if_pos hop]
      cases ha : apply_op (t.headD ' ') stk with
      | error e =>
        intro hcontra
        simp at hcontra
        exact apply_op_ne_invalid (t.headD ' ') stk (by rw [ha, hcontra])
      | ok stk' =>
        exact ih stk' (fun t' ht' => hwf t' (List.mem_cons_of_mem _ ht'))
          (fun t' ht' => hrange t' (List.mem_cons_of_mem _ ht'))
    · rw [if_neg hop]
      have hwt := hwf t (List.mem_cons_self _ _)
      have hnum : t ≠ [] ∧ ∀ c ∈ t, isCdigit c = true := by
        rcases hwt with ⟨c, rfl, hc⟩ | hh
        · exact absurd (by simp [is_op_token, hc]) hop
        · exact hh
      have hpl := parse_ll_digits hnum.1 hnum.2 (hrange t (List.mem_cons_self _ _) hnum.2)
      by_cases hlen : stk.length ≥ MAX_TOKENS
      · simp only [hpl, ns_push, if_pos hlen]
        simp
      · simp only [hpl, ns_push, if_neg hlen]
        exact ih _ (fun t' ht' => hwf t' (List.mem_cons_of_mem _ ht'))
          (fun t' ht' => hrange t' (List.mem_cons_of_mem _ ht'))

theorem close_paren_no_open :
    ∀ (ops : List Char) (out : List Token), '(' ∉ ops →
    ops.length + out.length ≤ MAX_TOKENS →
    close_paren ops out = .error "Mismatched parentheses" := by
  intro ops
  induction ops with
  | nil => intro out _ _; rfl
  | cons top rest ih =>
    intro out hmem hlen
    have h1 : ¬((top == '(') = true) := by
      simp only [beq_iff_eq]
      intro heq
      exact hmem (by rw [← heq]; exact List.mem_cons_self _ _)
    have hlt : out.length < MAX_TOKENS := by
      simp only [List.length_cons] at hlen
      omega
    unfold close_paren
    rw [if_neg h1, tokens_add_of_lt [top] hlt]
    refine ih _ (fun hm => hmem (List.mem_cons_of_mem _ hm)) ?_
    have hlap : (out ++ [[top].take (MAX_TOKEN_LEN - 1)]).length = out.length + 1 := by simp
    simp only [List.length_cons] at hlen
    omega

theorem drain_ops_contains_open :
    ∀ (ops : List Char) (out : List Token), '(' ∈ ops → ')' ∉ ops →
    ops.length + out.length ≤ MAX_TOKENS →
    drain_ops ops out = .error "Mismatched parentheses" := by
  intro ops
  induction ops with
  | nil => intro out hmem _ _; exact absurd hmem (List.not_mem_nil _)
  | cons top rest ih =>
    intro out hmem hmem2 hlen
    by_cases htop : (top == '(' || top == ')') = true
    · unfold drain_ops
      rw [if_pos htop]
    · have h1 : top ≠ '(' ∧ top ≠ ')' := by
        simp only [Bool.or_eq_true, beq_iff_eq] at htop
        push_neg at htop
        exact htop
      have hmem' : '(' ∈ rest := by
        rcases List.mem_cons.mp hmem with hm | hm
        · exact absurd hm.symm h1.1
        · exact hm
      have hlt : out.length < MAX_TOKENS := by
        simp only [List.length_cons] at hlen
        omega
      unfold drain_ops
      rw [if_neg htop, tokens_add_of_lt [top] hlt]
      refine ih _ hmem' (fun hm => hmem2 (List.mem_cons_of_mem _ hm)) ?_
      have hlap : (out ++ [[top].take (MAX_TOKEN_LEN - 1)]).length = out.length + 1 := by simp
      simp only [List.length_cons] at hlen
      omega

theorem drain_ops_no_parens :
    ∀ (ops : List Char) (out : List Token),
    (∀ c ∈ ops, c ≠ '(' ∧ c ≠ ')') →
    ops.length + out.length ≤ MAX_TOKENS →
    ∃ out', drain_ops ops out = .ok out' := by
  intro ops
  induction ops with
  | nil => intro out _ _; exact ⟨out, rfl⟩
  | cons top rest ih =>
    intro out hmem hlen
    have h1 := hmem top (List.mem_cons_self _ _)
    have htop : ¬((top == '(' || top == ')') = true) := by
      simp only [Bool.or_eq_true, beq_iff_eq]
      push_neg
      exact h1
    have hlt : out.length < MAX_TOKENS := by
      simp only [List.length_cons] at hlen
      omega
    unfold drain_ops
    rw [if_neg htop, tokens_add_of_lt [top] hlt]
    refine ih _ (fun c hc => hmem c (List.mem_cons_of_mem _ hc)) ?_
    have hlap : (out ++ [[top].take (MAX_TOKEN_LEN - 1)]).length = out.length + 1 := by simp
    simp only [List.length_cons] at hlen
    omega

theorem pop_higher_out_le (op : Char) :
    ∀ (ops : List Char) (out : List Token) (ops' : List Char) (out' : List Token),
    pop_higher op ops out = .ok (ops', out') → out.length ≤ out'.length := by
  intro ops
  induction ops with
  | nil =>
    intro out ops' out' h
    unfold pop_higher at h
    injection h with h'
    injection h' with _ h2
    subst h2
    exact le_refl _
  | cons top rest ih =>
    intro out ops' out' h
    unfold pop_higher at h
    split at h
    · split at h
      · cases hta : tokens_add out [top] with
        | none => rw [hta] at h; exact absurd h (by simp)
        | some out1 =>
          rw [hta] at h
          have h2 := ih out1 ops' out' h
          have h3 : out1.length = out.length + 1 := by
            unfold tokens_add at hta
            split at hta
            · exact absurd hta (by simp)
            · injection hta with h4
              subst h4
              simp
          omega
      · injection h with h'
        injection h' with _ h2
        subst h2
        exact le_refl _
    · injection h with h'
      injection h' with _ h2
      subst h2
      exact le_refl _

theorem tokens_add_length {out : List Token} {s : Token} {out1 : List Token}
    (h : tokens_add out s = some out1) : out1.length = out.length + 1 := by
  unfold tokens_add at h
  split at h
  · exact absurd h (by simp)
  · injection h with h'
    subst h'
    simp

theorem pop_higher_stay (op top : Char) (rest : List Char) (out : List Token)
    (h : ¬(is_operator top = true ∧
      (precedence op < precedence top ∨
        (precedence top = precedence op ∧ is_right_assoc op = false)))) :
    pop_higher op (top :: rest) out = .ok (top :: rest, out) := by
  unfold pop_higher
  by_cases h1 : is_operator top = true
  · rw [if_pos h1]
    have h2 : ¬(precedence top > precedence op ∨
        (precedence top = precedence op ∧ ¬is_right_assoc op)) := by
      intro hx
      apply h
      refine ⟨h1, ?_⟩
      rcases hx with hx | ⟨hx1, hx2⟩
      · exact Or.inl hx
      · refine Or.inr ⟨hx1, ?_⟩
        cases hira : is_right_assoc op with
        | false => rfl
        | true => exact absurd hira hx2
    rw [if_neg h2]
  · rw [if_neg h1]

theorem pop_higher_move (op top : Char) (rest : List Char) (out : List Token)
    (h : is_operator top = true ∧
      (precedence op < precedence top ∨
        (precedence top = precedence op ∧ is_right_assoc op = false))) :
    pop_higher op (top :: rest) out ≠ .ok (top :: rest, out) := by
  unfold pop_higher
  rw [if_pos h.1]
  have h2 : precedence top > precedence op ∨
      (precedence top = precedence op ∧ ¬is_right_assoc op) := by
    rcases h.2 with hx | ⟨hx1, hx2⟩
    · exact Or.inl hx
    · exact Or.inr ⟨hx1, by rw [hx2]; exact Bool.false_ne_true⟩
  rw [if_pos h2]
  cases hta : tokens_add out [top] with
  | none => simp
  | some out1 =>
    intro hcontra
    have hle := pop_higher_out_le op rest out1 (top :: rest) out (by exact hcontra)
    have hl1 := tokens_add_length hta
    omega

/-- C1: the inputs "2+3*4", "2^3^2" and "-2^2" all parse, evaluate to 14,
512 and 4 respectively, and "-2^2" yields the postfix token sequence
2, unary-minus, 2, ^, printed as "2 ~ 2 ^". -/
theorem C1_concrete_traces :
    ( infix_to_postfix "2+3*4" = .ok [['2'], ['3'], ['4'], ['*'], ['+']] ∧
      evaluate_postfix [['2'], ['3'], ['4'], ['*'], ['+']] = .ok 14 ) ∧
    ( infix_to_postfix "2^3^2" = .ok [['2'], ['3'], ['2'], ['^'], ['^']] ∧
      evaluate_postfix [['2'], ['3'], ['2'], ['^'], ['^']] = .ok 512 ) ∧
    ( infix_to_postfix "-2^2" = .ok [['2'], ['u'], ['2'], ['^']] ∧
      evaluate_postfix [['2'], ['u'], ['2'], ['^']] = .ok 4 ∧
      print_postfix [['2'], ['u'], ['2'], ['^']] = "2 ~ 2 ^".data ) :=
  ⟨⟨rfl, rfl⟩, ⟨rfl, rfl⟩, rfl, rfl, rfl⟩

/-- C2: the precedence table is u=4, ^=3, * / %=2, + -=1; exactly ^ and u
are right-associative; and the pop loop run when a new operator arrives
removes the stack top iff it is an operator of strictly greater precedence,
or of equal precedence while the new operator is left-associative. -/
theorem C2_pop_decision :
    (precedence 'u' = 4 ∧ precedence '^' = 3 ∧ precedence '*' = 2 ∧
      precedence '/' = 2 ∧ precedence '%' = 2 ∧ precedence '+' = 1 ∧
      precedence '-' = 1) ∧
    (∀ c : Char, is_right_assoc c = true ↔ (c = '^' ∨ c = 'u')) ∧
    (∀ (op top : Char) (rest : List Char) (out : List Token),
      pop_higher op (top :: rest) out ≠ .ok (top :: rest, out) ↔
        (is_operator top = true ∧
          (precedence op < precedence top ∨
            (precedence top = precedence op ∧ is_right_assoc op = false)))) := by
  refine ⟨by decide, fun c => by simp [is_right_assoc], fun op top rest out => ⟨?_, ?_⟩⟩
  · intro hne
    by_contra hc
    exact hne (pop_higher_stay op top rest out hc)
  · exact pop_higher_move op top rest out

/-- C3 counterexample: the input "u5" contains the character u, which is
outside the claimed character set, yet it parses successfully (the literal
u is treated as the internal unary-minus operator) and evaluates to -5. -/
theorem C3_counterexample :
    infix_to_postfix "u5" = .ok [['5'], ['u']] ∧
    evaluate_postfix [['5'], ['u']] = .ok (-5) ∧
    'u' ∈ "u5".data ∧
    ¬('u' = '+' ∨ 'u' = '-' ∨ 'u' = '*' ∨ 'u' = '/' ∨ 'u' = '%' ∨ 'u' = '^' ∨
      'u' = '(' ∨ 'u' = ')') ∧
    isCdigit 'u' = false ∧ isCspace 'u' = false :=
  ⟨rfl, rfl, by decide, by decide, rfl, rfl⟩

/-- C3 (amended): a successful parse only ever consumes whitespace, digits,
parentheses and the operator characters (including the synthetic u), and
when the scanner reaches any other character it fails with the error
Invalid character naming that character. -/
theorem C3_amended :
    (∀ (expr : String) (toks : List Token),
      infix_to_postfix expr = .ok toks → ∀ c ∈ expr.data, allowedChar c = true) ∧
    (∀ (c : Char) (rest ops : List Char) (out : List Token) (expect : Bool),
      allowedChar c = false →
      i2p_loop (c :: rest) ops out expect none =
        .error ("Invalid character: " ++ quoteC c)) :=
  ⟨fun expr toks h => i2p_loop_chars expr.data [] [] true none toks h,
   fun c rest ops out expect h => i2p_loop_invalid_char c rest ops out expect h⟩

theorem C3_amended_witness :
    allowedChar '5' = true ∧
    i2p_loop ['#'] [] [] true none = .error ("Invalid character: " ++ quoteC '#') :=
  ⟨C3_amended.1 "5" [['5']] rfl '5' (by decide),
   C3_amended.2 '#' [] [] [] true rfl⟩

/-- C4: the parser accepts "(2+)" and "1 2", whose postfix replays violate
the claimed stack invariant: "(2+)" underflows the operand stack and
"1 2" leaves two values on it. -/
theorem C4_stack_invariant_bug :
    infix_to_postfix "(2+)" = .ok [['2'], ['+']] ∧
    evaluate_postfix [['2'], ['+']] = .error "Not enough operands for binary operator" ∧
    infix_to_postfix "1 2" = .ok [['1'], ['2']] ∧
    evaluate_postfix [['1'], ['2']] = .error "Extra operands or insufficient operators" :=
  ⟨rfl, rfl, rfl, rfl⟩

/-- C5 counterexample: a 20-digit numeral parses (the parser allows up to
63 digits) but its value exceeds the signed 64-bit range, so the evaluator
fails with Invalid number in postfix. -/
theorem C5_counterexample :
    infix_to_postfix "99999999999999999999" =
      .ok [['9', '9', '9', '9', '9', '9', '9', '9', '9', '9',
            '9', '9', '9', '9', '9', '9', '9', '9', '9', '9']] ∧
    evaluate_postfix [['9', '9', '9', '9', '9', '9', '9', '9', '9', '9',
            '9', '9', '9', '9', '9', '9', '9', '9', '9', '9']] =
      .error "Invalid number in postfix" ∧
    LLONG_MAX < (99999999999999999999 : Int) :=
  ⟨rfl, rfl, by decide⟩

/-- C5 (amended): on parser output whose numeral tokens all have values
within the signed 64-bit range, the evaluator never fails with
Invalid number in postfix. -/
theorem C5_amended (expr : String) (toks : List Token)
    (hp : infix_to_postfix expr = .ok toks)
    (hrange : ∀ t ∈ toks, (∀ c ∈ t, isCdigit c = true) → digitsVal t ≤ 2 ^ 63 - 1) :
    evaluate_postfix toks ≠ .error "Invalid number in postfix" := by
  have hwf := i2p_loop_wf expr.data [] [] true none toks (by simp) (by simp)
    (by simp) hp
  exact eval_loop_ne_invalid toks [] hwf hrange

theorem C5_amended_witness :
    evaluate_postfix [['5']] ≠ .error "Invalid number in postfix" :=
  C5_amended "5" [['5']] rfl (by decide)

theorem natAbs_tdiv (a b : Int) : (Int.tdiv a b).natAbs = a.natAbs / b.natAbs := by
  cases a <;> cases b <;> simp only [Int.tdiv, Int.natAbs_neg] <;> rfl

theorem natAbs_tmod (a b : Int) : (Int.tmod a b).natAbs = a.natAbs % b.natAbs := by
  cases a <;> cases b <;> simp only [Int.tmod, Int.natAbs_neg] <;> rfl

theorem wrap64_tdiv {a b : Int} (hb0 : b ≠ 0) (hnot : ¬(a = LLONG_MIN ∧ b = -1))
    (hal : LLONG_MIN ≤ a) (hau : a ≤ LLONG_MAX) (hbl : LLONG_MIN ≤ b)
    (hbu : b ≤ LLONG_MAX) : wrap64 (Int.tdiv a b) = Int.tdiv a b := by
  rcases eq_or_ne a LLONG_MIN with ha | ha
  · subst ha
    have hbne1 : b ≠ -1 := fun hx => hnot ⟨rfl, hx⟩
    have hb1 : b = 1 ∨ 2 ≤ b.natAbs := by omega
    rcases hb1 with rfl | hb2
    · rw [Int.tdiv_one]
      exact wrap64_id (le_refl _) (by simp only [LLONG_MIN, LLONG_MAX]; omega)
    · have habs : (Int.tdiv LLONG_MIN b).natAbs ≤ 2 ^ 62 := by
        rw [natAbs_tdiv]
        have h1 : LLONG_MIN.natAbs = 2 ^ 63 := by decide
        rw [h1]
        calc 2 ^ 63 / b.natAbs ≤ 2 ^ 63 / 2 := Nat.div_le_div_left hb2 (by omega)
        _ = 2 ^ 62 := by decide
      exact wrap64_id_abs (by omega)
  · have haA : a.natAbs ≤ 2 ^ 63 - 1 := by
      simp only [LLONG_MIN, LLONG_MAX] at hal hau ha ⊢
      omega
    exact wrap64_id_abs (by rw [natAbs_tdiv]; exact le_trans (Nat.div_le_self _ _) haA)

theorem wrap64_tmod {a b : Int} (hb0 : b ≠ 0)
    (hal : LLONG_MIN ≤ a) (hau : a ≤ LLONG_MAX) (hbl : LLONG_MIN ≤ b)
    (hbu : b ≤ LLONG_MAX) : wrap64 (Int.tmod a b) = Int.tmod a b := by
  have hbpos : 0 < b.natAbs := Int.natAbs_pos.mpr hb0
  have hble : b.natAbs ≤ 2 ^ 63 := by simp only [LLONG_MIN, LLONG_MAX] at hbl hbu; omega
  have hale : a.natAbs ≤ 2 ^ 63 := by simp only [LLONG_MIN, LLONG_MAX] at hal hau; omega
  have h1 : a.natAbs % b.natAbs < b.natAbs := Nat.mod_lt _ hbpos
  have h2 : a.natAbs % b.natAbs ≤ a.natAbs := Nat.mod_le _ _
  apply wrap64_id_abs
  rw [natAbs_tmod]
  omega

/-- C6 counterexample: the quotient LLONG_MIN / -1 overflows (undefined
behaviour in C, wraparound in this model): the pipeline returns -2^63,
which is not the truncating quotient 2^63. -/
theorem C6_counterexample :
    infix_to_postfix "(0-9223372036854775807-1)/(0-1)" =
      .ok [['0'], ['9', '2', '2', '3', '3', '7', '2', '0', '3', '6',
            '8', '5', '4', '7', '7', '5', '8', '0', '7'], ['-'], ['1'], ['-'],
           ['0'], ['1'], ['-'], ['/']] ∧
    evaluate_postfix [['0'], ['9', '2', '2', '3', '3', '7', '2', '0', '3', '6',
            '8', '5', '4', '7', '7', '5', '8', '0', '7'], ['-'], ['1'], ['-'],
           ['0'], ['1'], ['-'], ['/']] = .ok (-9223372036854775808) ∧
    Int.tdiv (-9223372036854775808) (-1) = 9223372036854775808 ∧
    (-9223372036854775808 : Int) ≠ 9223372036854775808 :=
  ⟨rfl, rfl, by decide, by decide⟩

/-- C6 (amended): / and % with a zero right operand fail with exactly
Division by zero resp. Modulo by zero ("5/0" and "5%0" included); for every
nonzero in-range right operand b with (a, b) distinct from (-2^63, -1),
/ returns the quotient truncated toward zero and % the matching remainder,
and the truncating identity a = (a/b)*b + a%b holds. -/
theorem C6_amended :
    (∀ (a : Int) (stk : List Int),
      apply_op '/' (0 :: a :: stk) = .error "Division by zero") ∧
    (∀ (a : Int) (stk : List Int),
      apply_op '%' (0 :: a :: stk) = .error "Modulo by zero") ∧
    ( infix_to_postfix "5/0" = .ok [['5'], ['0'], ['/']] ∧
      evaluate_postfix [['5'], ['0'], ['/']] = .error "Division by zero" ) ∧
    ( infix_to_postfix "5%0" = .ok [['5'], ['0'], ['%']] ∧
      evaluate_postfix [['5'], ['0'], ['%']] = .error "Modulo by zero" ) ∧
    (∀ (a b : Int) (stk : List Int), b ≠ 0 → ¬(a = LLONG_MIN ∧ b = -1) →
      LLONG_MIN ≤ a → a ≤ LLONG_MAX → LLONG_MIN ≤ b → b ≤ LLONG_MAX →
      stk.length < MAX_TOKENS →
      apply_op '/' (b :: a :: stk) = .ok (Int.tdiv a b :: stk) ∧
      apply_op '%' (b :: a :: stk) = .ok (Int.tmod a b :: stk)) ∧
    (∀ a b : Int, a = Int.tdiv a b * b + Int.tmod a b) := by
  refine ⟨fun a stk => rfl, fun a stk => rfl, ⟨rfl, rfl⟩, ⟨rfl, rfl⟩,
    ?_, fun a b => ?_⟩
  · intro a b stk hb0 hnot hal hau hbl hbu hsl
    have hsl' : ¬(stk.length ≥ MAX_TOKENS) := by omega
    constructor
    · simp [apply_op, ns_push, hb0, hsl', wrap64_tdiv hb0 hnot hal hau hbl hbu]
    · simp [apply_op, ns_push, hb0, hsl', wrap64_tmod hb0 hal hau hbl hbu]
  · have h := Int.tdiv_add_tmod a b
    rw [mul_comm] at h
    exact h.symm

theorem C6_amended_witness :
    apply_op '/' [2, 7] = .ok [3] ∧ apply_op '%' [2, 7] = .ok [1] ∧
    (7 : Int) = Int.tdiv 7 2 * 2 + Int.tmod 7 2 := by
  have h := C6_amended.2.2.2.2.1 7 2 [] (by decide) (by decide) (by decide)
    (by decide) (by decide) (by decide) (by decide)
  have h1 : Int.tdiv 7 2 = 3 := by decide
  have h2 : Int.tmod 7 2 = 1 := by decide
  refine ⟨?_, ?_, C6_amended.2.2.2.2.2 7 2⟩
  · rw [h1] at h
    exact h.1
  · rw [h2] at h
    exact h.2

/-- C7 counterexample: (-2)^63 = -2^63 is representable as a signed 64-bit
value, yet safe_pow_ll rejects it (its guards compare magnitudes against
LLONG_MAX only), and the pipeline "-2^63" fails with the overflow error. -/
theorem C7_counterexample :
    safe_pow_ll (-2) 63 = none ∧
    (-2 : Int) ^ (63 : Nat) = -9223372036854775808 ∧
    LLONG_MIN ≤ -9223372036854775808 ∧
    infix_to_postfix "-2^63" = .ok [['2'], ['u'], ['6', '3'], ['^']] ∧
    evaluate_postfix [['2'], ['u'], ['6', '3'], ['^']] =
      .error "Invalid or overflow in exponentiation" :=
  ⟨rfl, by decide, by decide, rfl, rfl⟩

/-- C7 (amended): a negative exponent always fails; for -2^63 < a ≤ 2^63-1
and 0 ≤ b ≤ 2^63-1, safe_pow_ll returns a^b exactly when the magnitude of
a^b is at most 2^63-1 and fails otherwise (so the representable value
a^b = -2^63 is also rejected); a failure surfaces in apply_op as the error
Invalid or overflow in exponentiation, as "2^100" does end to end. -/
theorem C7_amended :
    (∀ a b : Int, b < 0 → safe_pow_ll a b = none) ∧
    (∀ a b : Int, 0 ≤ b → b ≤ LLONG_MAX → LLONG_MIN < a → a ≤ LLONG_MAX →
      safe_pow_ll a b =
        if (a ^ b.toNat).natAbs ≤ 2 ^ 63 - 1 then some (a ^ b.toNat) else none) ∧
    (∀ (a b : Int) (stk : List Int), safe_pow_ll a b = none →
      apply_op '^' (b :: a :: stk) = .error "Invalid or overflow in exponentiation") ∧
    safe_pow_ll 2 100 = none ∧
    infix_to_postfix "2^100" = .ok [['2'], ['1', '0', '0'], ['^']] ∧
    evaluate_postfix [['2'], ['1', '0', '0'], ['^']] =
      .error "Invalid or overflow in exponentiation" := by
  refine ⟨fun a b h => safe_pow_ll_neg h,
    fun a b h1 h2 h3 h4 => safe_pow_ll_spec h1 h2 h3 h4,
    ?_, rfl, rfl, rfl⟩
  intro a b stk h
  simp [apply_op, h]

theorem C7_amended_witness :
    safe_pow_ll 3 (-1) = none ∧ safe_pow_ll 3 4 = some 81 ∧
    apply_op '^' [-1, 3, 5] = .error "Invalid or overflow in exponentiation" := by
  refine ⟨C7_amended.1 3 (-1) (by decide), ?_,
    C7_amended.2.2.1 3 (-1) [5] (C7_amended.1 3 (-1) (by decide))⟩
  rw [C7_amended.2.1 3 4 (by decide) (by decide) (by decide) (by decide)]
  decide

/-- C8: a close parenthesis scanned with no open parenthesis on the
operator stack fails with exactly Mismatched parentheses, as does the
end-of-input drain when an open parenthesis remains (both under the
reachable-state bounds: no close parenthesis is ever stacked and the
emitted tokens stay within capacity); "(1+2" and "1+2)" both fail so. -/
theorem C8_mismatched_parens :
    (∀ (rp ops : List Char) (out : List Token) (expect : Bool),
      '(' ∉ ops → ops.length + out.length ≤ MAX_TOKENS →
      i2p_loop (')' :: rp) ops out expect none = .error "Mismatched parentheses") ∧
    (∀ (ops : List Char) (out : List Token) (expect : Bool),
      '(' ∈ ops → ')' ∉ ops → ops.length + out.length ≤ MAX_TOKENS →
      i2p_loop [] ops out expect none = .error "Mismatched parentheses") ∧
    infix_to_postfix "(1+2" = .error "Mismatched parentheses" ∧
    infix_to_postfix "1+2)" = .error "Mismatched parentheses" := by
  refine ⟨?_, ?_, rfl, rfl⟩
  · intro rp ops out expect h1 h2
    have hcp := close_paren_no_open ops out h1 h2
    simp +decide [i2p_loop, flush_num, hcp]
  · intro ops out expect h1 h2 h3
    have hdr := drain_ops_contains_open ops out h1 h2 h3
    simp [i2p_loop, flush_num, hdr]

theorem C8_witness :
    i2p_loop [')'] ['+'] [] false none = .error "Mismatched parentheses" ∧
    i2p_loop [] ['+', '('] [['1']] false none = .error "Mismatched parentheses" :=
  ⟨C8_mismatched_parens.1 [] ['+'] [] false (by decide) (by decide),
   C8_mismatched_parens.2.1 ['+', '('] [['1']] false (by decide) (by decide)
     (by decide)⟩

/-- C9 counterexample: for the input "(" the operand-expected flag is still
true at end of input, yet the parser fails with Mismatched parentheses
(the drain of the operator stack runs first), not with
Expression ends unexpectedly. -/
theorem C9_counterexample :
    infix_to_postfix "(" = .error "Mismatched parentheses" ∧
    i2p_loop [] ['('] [] true none = .error "Mismatched parentheses" ∧
    "Mismatched parentheses" ≠ "Expression ends unexpectedly" :=
  ⟨rfl, rfl, by decide⟩

/-- C9 (amended): while an operand is expected, an operator character other
than minus (which is reclassified as unary minus) and other than the
literal u fails with exactly Unexpected operator; end of input with the
operand-expected flag still true fails with exactly
Expression ends unexpectedly provided the operator-stack drain succeeds
(no parenthesis left on the stack, capacity not exceeded); "*5" and "5+"
fail with those errors. -/
theorem C9_amended :
    (∀ (c : Char) (rest ops : List Char) (out : List Token),
      is_operator c = true → c ≠ '-' → c ≠ 'u' →
      i2p_loop (c :: rest) ops out true none = .error "Unexpected operator") ∧
    (∀ (ops : List Char) (out : List Token),
      (∀ x ∈ ops, x ≠ '(' ∧ x ≠ ')') → ops.length + out.length ≤ MAX_TOKENS →
      i2p_loop [] ops out true none = .error "Expression ends unexpectedly") ∧
    infix_to_postfix "*5" = .error "Unexpected operator" ∧
    infix_to_postfix "5+" = .error "Expression ends unexpectedly" := by
  refine ⟨?_, ?_, rfl, rfl⟩
  · intro c rest ops out hio hne hnu
    have hc : c = '+' ∨ c = '-' ∨ c = '*' ∨ c = '/' ∨ c = '%' ∨ c = '^' ∨ c = 'u' := by
      simpa [is_operator, or_assoc] using hio
    rcases hc with rfl | rfl | rfl | rfl | rfl | rfl | rfl
    · rfl
    · exact absurd rfl hne
    · rfl
    · rfl
    · rfl
    · rfl
    · exact absurd rfl hnu
  · intro ops out hmem hlen
    obtain ⟨out', hdr⟩ := drain_ops_no_parens ops out hmem hlen
    simp [i2p_loop, flush_num, hdr]

theorem C9_amended_witness :
    i2p_loop ['*'] [] [] true none = .error "Unexpected operator" ∧
    i2p_loop [] ['+'] [['5']] true none = .error "Expression ends unexpectedly" :=
  ⟨C9_amended.1 '*' [] [] [] rfl (by decide) (by decide),
   C9_amended.2.1 ['+'] [['5']] (by decide) (by decide)⟩

/-- C10 counterexample: the base -2^63 is a representable signed 64-bit
value, yet raising it to the exponent 1 fails instead of returning the
base (the guard divides by the wrapped llabs of the base, obtaining 0). -/
theorem C10_counterexample :
    safe_pow_ll (-9223372036854775808) 1 = none ∧
    (Option.none : Option Int) ≠ some (-9223372036854775808) ∧
    LLONG_MIN ≤ -9223372036854775808 :=
  ⟨rfl, by decide, by decide⟩

/-- C10 (amended): with exponent 0 the power helper returns 1 for every
base including 0 ("0^0" evaluates to 1 end to end); with exponent 1 it
returns the base for every base in (-2^63, 2^63-1], while the base -2^63
itself fails. -/
theorem C10_amended :
    (∀ a : Int, safe_pow_ll a 0 = some 1) ∧
    (∀ a : Int, LLONG_MIN < a → a ≤ LLONG_MAX → safe_pow_ll a 1 = some a) ∧
    ( infix_to_postfix "0^0" = .ok [['0'], ['0'], ['^']] ∧
      evaluate_postfix [['0'], ['0'], ['^']] = .ok 1 ) ∧
    safe_pow_ll LLONG_MIN 1 = none := by
  refine ⟨fun a => rfl, ?_, ⟨rfl, rfl⟩, rfl⟩
  intro a h1 h2
  rw [safe_pow_ll_spec (by decide) (by decide) h1 h2]
  have ht : ((1 : Int).toNat) = 1 := rfl
  rw [ht, pow_one, if_pos (by simp only [LLONG_MIN, LLONG_MAX] at h1 h2 ⊢; omega)]

theorem C10_amended_witness :
    safe_pow_ll 5 0 = some 1 ∧ safe_pow_ll 5 1 = some 5 :=
  ⟨C10_amended.1 5, C10_amended.2.1 5 (by decide) (by decide)⟩
